import Mathlib

/-!
# Verification of the KML GNSS analysis script

Shallow embedding of `src/GNSS_precision.py` (KML-caculations repository):
the precision estimator of `main` (lines 241-261), the accuracy section of
`main` (lines 267-273), `position_diff` (lines 71-83) and
`line_straightness` (lines 85-195).  Coordinates are embedded as exact
rationals; the only real-valued steps of the source are the final
`math.sqrt` and the `math.pi`-based degree-to-meter constant, which are
embedded over `ℝ`.
-/

set_option autoImplicit false

/-- A KML coordinate sample: longitude and latitude in decimal degrees,
in that order (the source's convention).  The altitude column is parsed by
`read_ublox` but never read by any of the three estimators, so it is
omitted from the embedding. -/
structure Point where
  long : ℚ
  lat : ℚ
  deriving DecidableEq, Repr, Inhabited

/-- Error conditions of the analysis core.  The source itself defines no
error taxonomy; the only failure the spec attributes to the core that can
actually occur is the coordinate-range failure raised inside the external
geopy library when `position_diff` hands it an out-of-range point. -/
inductive GnssError where
  | invalidCoordinate
  deriving DecidableEq, Repr

/-- A point is valid when its latitude lies in [-90, 90] and its longitude
in [-180, 180] (spec section 4.1). -/
def validPoint (p : Point) : Prop :=
  -90 ≤ p.lat ∧ p.lat ≤ 90 ∧ -180 ≤ p.long ∧ p.long ≤ 180

instance validPoint.dec (p : Point) : Decidable (validPoint p) := by
  unfold validPoint
  infer_instance

/-- Modelled from the spec: the geodesic surface distance in meters between
two (longitude, latitude) points.  The actual computation lives in the
external geopy library (`geopy.distance.distance(...).m`), whose source is
not part of this repository, so only the interface the spec fixes for the
Geodesic Distance Function is modelled: a nonnegative function of the two
points, symmetric, vanishing exactly on coincident points.  The concrete
surrogate used is the squared degree-space separation, which has all of
those properties; the numeric magnitude of the true WGS-84 geodesic is not
modelled. -/
def geodesic_distance (p q : Point) : ℚ :=
  (p.lat - q.lat) ^ 2 + (p.long - q.long) ^ 2

/-- Embedding of `position_diff` (src lines 71-83): swaps each
(longitude, latitude) input into geopy's (latitude, longitude) order and
returns the geodesic distance in meters.  The function body performs no
validation of its own; the range check happens inside geopy when the two
points are constructed, modelled from the spec: fails with
`InvalidCoordinate` if either input is outside [-90,90] latitude or
[-180,180] longitude. -/
def position_diff (testcord targetcord : Point) : Except GnssError ℚ :=
  if validPoint testcord ∧ validPoint targetcord then
    Except.ok (geodesic_distance testcord targetcord)
  else
    Except.error GnssError.invalidCoordinate

/-! ## Precision section of `main` (src lines 241-261)

The source builds `cords = zip(long, lat)` — a single-use iterator — and
then runs `for i, cord1 in enumerate(cords): for j, cord2 in
enumerate(cords): if j != i: all_combos.append([cord1, cord2])`.  The
embedding models the shared iterator explicitly: the inner loop consumes
whatever remains of the iterator, so after the first outer iteration the
iterator is exhausted and the outer loop stops. -/

/-- The inner `for j, cord2 in enumerate(cords)` loop, started with outer
index `i`, current head `c1` and inner counter `j`, consuming the rest of
the shared iterator.  It appends the pair `(cord1, cord2)` whenever
`j != i`. -/
def inner_pairs (i : Nat) (c1 : Point) : Nat → List Point → List (Point × Point)
  | _, [] => []
  | j, c2 :: rest =>
    if j ≠ i then (c1, c2) :: inner_pairs i c1 (j + 1) rest
    else inner_pairs i c1 (j + 1) rest

/-- The outer `for i, cord1 in enumerate(cords)` loop over the shared
iterator state.  Each outer step pulls one element off the iterator, and
the inner loop then drains everything that remains, so the recursive call
resumes on the empty iterator and the loop ends.  The `fuel` argument only
bounds the number of outer iterations so that the recursion is structural;
`all_combos` supplies more fuel than the loop can consume. -/
def outer_pairs : Nat → List Point → Nat → List (Point × Point)
  | 0, _, _ => []
  | _ + 1, [], _ => []
  | fuel + 1, c1 :: rest, i => inner_pairs i c1 0 rest ++ outer_pairs fuel [] (i + 1)

/-- The list `all_combos` built by the pair-generation loops of `main`
(src lines 241-246). -/
def all_combos (w : List Point) : List (Point × Point) :=
  outer_pairs (w.length + 1) w 0

/-- The distance-attachment loop of `main` (src lines 248-250):
`position_diff` applied to each pair in order, an exception propagating
from the first failing pair. -/
def attach_distances : List (Point × Point) → Except GnssError (List ℚ)
  | [] => Except.ok []
  | pq :: rest => do
    let d ← position_diff pq.1 pq.2
    let ds ← attach_distances rest
    Except.ok (d :: ds)

/-- One iteration of the max/min loop of `main` (src lines 255-259) on the
state (maximum, minimum): `if cord[2] > maximum: maximum = cord[2]` — and
the `elif cord[2] < minimum:` branch evaluates `minimum - cord[2]` and
discards the result, leaving `minimum` unchanged. -/
def max_min_step (mm : ℚ × ℚ) (d : ℚ) : ℚ × ℚ :=
  if mm.1 < d then (d, mm.2)
  else if d < mm.2 then (mm.1, mm.2)
  else mm

/-- The precision figure `main` prints (src lines 252-261): both `maximum`
and `minimum` start at the literal 0, the loop above runs over the attached
distances, and the reported bound is `(maximum - minimum) / 2.0`. -/
def precision_result (w : List Point) : Except GnssError ℚ := do
  let ds ← attach_distances (all_combos w)
  let mm := ds.foldl max_min_step (0, 0)
  Except.ok ((mm.1 - mm.2) / 2)

/-- The stationary window `main` analyses: the first 60 samples of the
trimmed track (`file.iloc[:60]`, src lines 219-221). -/
def precision_window (t : List Point) : List Point :=
  t.take 60

/-! ## Accuracy section of `main` (src lines 267-273) -/

/-- The measured line length of `main` (src lines 268-269): the distance
between the first and the last sample of the trimmed track. -/
def measured_length (t : List Point) : Except GnssError ℚ :=
  position_diff t.headI (t.getLastD default)

/-- The accuracy report of `main` (src lines 271-273): the measured length
together with the printed delta `line_length_meters - length`. -/
def accuracy_report (target : ℚ) (t : List Point) : Except GnssError (ℚ × ℚ) :=
  (measured_length t).map fun m => (m, target - m)

/-! ## `line_straightness` (src lines 85-195)

The plotting part of the function (src lines 157-193) is presentation only
(spec sections 1 and 6) and is not embedded; the embedding covers the
returned RMSE. -/

/-- Entry `cordf.iloc[0,1]` of the track: starting latitude. -/
def lat_start (t : List Point) : ℚ :=
  t.headI.lat

/-- Entry `cordf.iloc[-1,1]` of the track: final latitude. -/
def lat_stop (t : List Point) : ℚ :=
  (t.getLastD default).lat

/-- Entry `cordf.iloc[0,0]` of the track: starting longitude. -/
def long_start (t : List Point) : ℚ :=
  t.headI.long

/-- Entry `cordf.iloc[-1,0]` of the track: final longitude. -/
def long_stop (t : List Point) : ℚ :=
  (t.getLastD default).long

/-- Direction of movement in latitude (src lines 106-109): `true` stands
for the source's `'UP'`, chosen unless `lat_start > lat_stop`. -/
def lat_dir_up (t : List Point) : Bool :=
  !decide (lat_stop t < lat_start t)

/-- Direction of movement in longitude (src lines 110-113). -/
def long_dir_up (t : List Point) : Bool :=
  !decide (long_stop t < long_start t)

/-- Latitude range (src line 116): `max(start, stop) - min(start, stop)`. -/
def lat_range (t : List Point) : ℚ :=
  max (lat_start t) (lat_stop t) - min (lat_start t) (lat_stop t)

/-- Longitude range (src line 117). -/
def long_range (t : List Point) : ℚ :=
  max (long_start t) (long_stop t) - min (long_start t) (long_stop t)

/-- The signed per-step latitude increment applied inside the ideal-line
loop (src lines 123-126): `lat_range / len(ideal_line)` when moving up,
its negation when moving down.  Note the divisor is the full track length
`n`, not `n - 1`. -/
def lat_inc (t : List Point) : ℚ :=
  if lat_dir_up t then lat_range t / t.length else -(lat_range t / t.length)

/-- The signed per-step longitude increment (src lines 127-130). -/
def long_inc (t : List Point) : ℚ :=
  if long_dir_up t then long_range t / t.length else -(long_range t / t.length)

/-- One overwrite of the ideal-line loop body: the previous (already
updated) row plus the per-step increment in each axis (src lines 123-130).
-/
def ideal_update (li lo : ℚ) (prev : Point) : Point :=
  ⟨prev.long + lo, prev.lat + li⟩

/-- The ideal-line construction loop (src lines 120-130).  `ideal_line`
starts as a copy of `cordf`; row `i` is overwritten with row `i-1` (already
updated) plus the per-step increments whenever the guard
`i != 0 and i != len(ideal_line-1)` holds.  `ideal_line-1` is the data
frame with 1 subtracted elementwise, so `len(ideal_line-1)` is the track
length `n`; since the row index never reaches `n`, the guard reduces to
`i != 0`, and every row after the first is overwritten.  `prev` carries the
(updated) previous row. -/
def ideal_loop (li lo : ℚ) (n : Nat) : Nat → Point → List Point → List Point
  | _, _, [] => []
  | i, prev, row :: rest =>
    if i ≠ 0 ∧ i ≠ n then
      ideal_update li lo prev :: ideal_loop li lo n (i + 1) (ideal_update li lo prev) rest
    else
      row :: ideal_loop li lo n (i + 1) row rest

/-- The IdealLine data frame built by `line_straightness` (src lines
119-130). -/
def ideal_line (t : List Point) : List Point :=
  ideal_loop (lat_inc t) (long_inc t) t.length 0 t.headI t

/-- The `error` data frame (src lines 132-136): row `i` holds the squared
residual `(ideal_line[i] - cordf[i])**2` per axis.  (`error` starts as a
copy of `cordf` and every row is overwritten by the loop.) -/
def error_rows (t : List Point) : List Point :=
  ((ideal_line t).zip t).map fun pr =>
    ⟨(pr.1.long - pr.2.long) ^ 2, (pr.1.lat - pr.2.lat) ^ 2⟩

/-- Column mean `mse.loc["Longitude"] / len(error)` (src lines 138-140),
in square degrees. -/
def mse_long_deg (t : List Point) : ℚ :=
  ((error_rows t).map Point.long).sum / t.length

/-- Column mean `mse.loc["Latitude"] / len(error)` (src line 141), in
square degrees. -/
def mse_lat_deg (t : List Point) : ℚ :=
  ((error_rows t).map Point.lat).sum / t.length

/-- The WGS-84 equatorial radius in meters used by the conversion (src
line 145): `geopy.distance.ELLIPSOIDS['WGS-84'][0] * 1000`, the geopy
table storing the semi-major axis 6378.137 in kilometers. -/
def earth_radius : ℚ :=
  6378.137 * 1000

/-- The degree-to-meter conversion factor (src lines 146-147):
`2 * pi * earth_radius / 360`. -/
noncomputable def deg_to_meter : ℝ :=
  2 * Real.pi * (earth_radius : ℝ) / 360

/-- `mse_long` after conversion (src line 148). -/
noncomputable def mse_long_m (t : List Point) : ℝ :=
  (mse_long_deg t : ℝ) * deg_to_meter

/-- `mse_lat` after conversion (src line 149). -/
noncomputable def mse_lat_m (t : List Point) : ℝ :=
  (mse_lat_deg t : ℝ) * deg_to_meter

/-- The combined mean-square error (src line 152). -/
noncomputable def combined_mse (t : List Point) : ℝ :=
  (mse_lat_m t + mse_long_m t) / 2

/-- The value returned by `line_straightness` (src lines 155 and 195):
`math.sqrt(combined_mse)`. -/
noncomputable def line_straightness (t : List Point) : ℝ :=
  Real.sqrt (combined_mse t)

/-! ## Concrete inputs used by witnesses and counterexamples -/

/-- The perfectly collinear test track of spec section 8, scenario 1:
longitude fixed at 0, latitude stepping by 1 degree. -/
def track3 : List Point :=
  [⟨0, 0⟩, ⟨0, 1⟩, ⟨0, 2⟩]

/-- A constant track: three repetitions of the same coordinate. -/
def tconst : List Point :=
  [⟨1, 2⟩, ⟨1, 2⟩, ⟨1, 2⟩]

/-- A 60-sample window of pairwise-distinct valid points (longitude k,
latitude 0 for k = 0..59), the concrete input used to exhibit the
precision-loop defects. -/
def w60 : List Point :=
  ⟨0, 0⟩ :: (List.range 59).map fun k : Nat => ⟨(k : ℚ) + 1, 0⟩

/-! ## Helper lemmas -/

lemma geodesic_distance_comm (p q : Point) :
    geodesic_distance p q = geodesic_distance q p := by
  unfold geodesic_distance
  ring

lemma geodesic_distance_self (p : Point) : geodesic_distance p p = 0 := by
  unfold geodesic_distance
  ring

lemma geodesic_distance_nonneg (p q : Point) : 0 ≤ geodesic_distance p q := by
  unfold geodesic_distance
  positivity

lemma position_diff_ok {p q : Point} (hp : validPoint p) (hq : validPoint q) :
    position_diff p q = Except.ok (geodesic_distance p q) := by
  unfold position_diff
  rw [if_pos ⟨hp, hq⟩]

lemma headI_mem {w : List Point} (h : w ≠ []) : w.headI ∈ w := by
  cases w with
  | nil => exact absurd rfl h
  | cons a l => exact List.mem_cons_self a l

lemma inner_pairs_ne_zero (c1 : Point) :
    ∀ (l : List Point) (j : Nat), j ≠ 0 →
      inner_pairs 0 c1 j l = l.map fun c => (c1, c)
  | [], _, _ => rfl
  | c :: rest, j, h => by
    simp only [inner_pairs, h, ne_eq, not_false_eq_true, if_true, List.map_cons]
    exact congrArg _ (inner_pairs_ne_zero c1 rest (j + 1) (Nat.succ_ne_zero j))

lemma inner_pairs_zero (c1 : Point) (l : List Point) :
    inner_pairs 0 c1 0 l = l.tail.map fun c => (c1, c) := by
  cases l with
  | nil => rfl
  | cons c rest =>
    simp only [inner_pairs, ne_eq, not_true_eq_false, if_false, List.tail_cons]
    exact inner_pairs_ne_zero c1 rest 1 one_ne_zero

lemma all_combos_eq (w : List Point) :
    all_combos w = (w.drop 2).map fun c => (w.headI, c) := by
  cases w with
  | nil => rfl
  | cons c1 rest =>
    show inner_pairs 0 c1 0 rest ++ outer_pairs (rest.length + 1) [] 1 = _
    have houter : outer_pairs (rest.length + 1) [] 1 = [] := rfl
    have hdrop : List.drop 2 (c1 :: rest) = rest.tail := by
      cases rest <;> rfl
    rw [houter, List.append_nil, inner_pairs_zero, hdrop]
    rfl

lemma all_combos_mem {w : List Point} {pq : Point × Point}
    (h : pq ∈ all_combos w) : pq.1 ∈ w ∧ pq.2 ∈ w := by
  rw [all_combos_eq] at h
  obtain ⟨c, hc, hpq⟩ := List.mem_map.1 h
  have hw : w ≠ [] := by
    rintro rfl
    simp at hc
  rw [← hpq]
  exact ⟨headI_mem hw, List.drop_subset _ _ hc⟩

lemma attach_distances_ok :
    ∀ l : List (Point × Point),
      (∀ pq ∈ l, validPoint pq.1 ∧ validPoint pq.2) →
      attach_distances l = Except.ok (l.map fun pq => geodesic_distance pq.1 pq.2)
  | [], _ => rfl
  | pq :: rest, h => by
    have hpq := h pq (List.mem_cons_self pq rest)
    have hrest := attach_distances_ok rest fun x hx => h x (List.mem_cons_of_mem pq hx)
    simp only [attach_distances, position_diff_ok hpq.1 hpq.2, hrest, List.map_cons]
    rfl

lemma max_min_step_eq (mx mn d : ℚ) : max_min_step (mx, mn) d = (max mx d, mn) := by
  rcases lt_or_le mx d with h | h
  · simp [max_min_step, h, max_eq_right h.le]
  · simp [max_min_step, not_lt.mpr h, max_eq_left h, ite_self]

lemma foldl_max_min : ∀ (ds : List ℚ) (mx mn : ℚ),
    ds.foldl max_min_step (mx, mn) = (ds.foldl max mx, mn)
  | [], _, _ => rfl
  | d :: ds, mx, mn => by
    rw [List.foldl_cons, max_min_step_eq, foldl_max_min ds (max mx d) mn, List.foldl_cons]

lemma foldl_max_nonneg : ∀ (ds : List ℚ) (mx : ℚ), 0 ≤ mx → 0 ≤ ds.foldl max mx
  | [], _, h => h
  | d :: ds, mx, h => by
    rw [List.foldl_cons]
    exact foldl_max_nonneg ds (max mx d) (le_trans h (le_max_left mx d))

lemma foldl_max_zero : ∀ {ds : List ℚ}, (∀ d ∈ ds, d = 0) → ds.foldl max 0 = 0
  | [], _ => rfl
  | d :: ds, h => by
    rw [List.foldl_cons, h d (List.mem_cons_self d ds), max_self]
    exact foldl_max_zero fun x hx => h x (List.mem_cons_of_mem _ hx)

lemma precision_result_eq {w : List Point} {ds : List ℚ}
    (h : attach_distances (all_combos w) = Except.ok ds) :
    precision_result w =
      Except.ok
        (((ds.foldl max_min_step (0, 0)).1 - (ds.foldl max_min_step (0, 0)).2) / 2) := by
  unfold precision_result
  rw [h]
  rfl

lemma precision_result_error {w : List Point} {e : GnssError}
    (h : attach_distances (all_combos w) = Except.error e) :
    precision_result w = Except.error e := by
  unfold precision_result
  rw [h]
  rfl

lemma mem_zip_self : ∀ (l : List Point) (pr : Point × Point), pr ∈ l.zip l → pr.1 = pr.2
  | [], _, h => absurd h (List.not_mem_nil _)
  | a :: rest, pr, h => by
    rw [List.zip_cons_cons] at h
    rcases List.mem_cons.1 h with h1 | h2
    · rw [h1]
    · exact mem_zip_self rest pr h2

lemma error_rows_of_ideal_eq {t : List Point} (h : ideal_line t = t) :
    ∀ e ∈ error_rows t, e = (⟨0, 0⟩ : Point) := by
  intro e he
  unfold error_rows at he
  rw [h] at he
  obtain ⟨pr, hpr, rfl⟩ := List.mem_map.1 he
  rw [mem_zip_self t pr hpr]
  simp

lemma mse_lat_deg_of_ideal_eq {t : List Point} (h : ideal_line t = t) :
    mse_lat_deg t = 0 := by
  unfold mse_lat_deg
  have hsum : ((error_rows t).map Point.lat).sum = 0 := by
    refine List.sum_eq_zero fun x hx => ?_
    obtain ⟨e, he, rfl⟩ := List.mem_map.1 hx
    rw [error_rows_of_ideal_eq h e he]
  rw [hsum, zero_div]

lemma mse_long_deg_of_ideal_eq {t : List Point} (h : ideal_line t = t) :
    mse_long_deg t = 0 := by
  unfold mse_long_deg
  have hsum : ((error_rows t).map Point.long).sum = 0 := by
    refine List.sum_eq_zero fun x hx => ?_
    obtain ⟨e, he, rfl⟩ := List.mem_map.1 hx
    rw [error_rows_of_ideal_eq h e he]
  rw [hsum, zero_div]

lemma straightness_of_ideal_eq {t : List Point} (h : ideal_line t = t) :
    line_straightness t = 0 := by
  unfold line_straightness combined_mse mse_lat_m mse_long_m
  rw [mse_lat_deg_of_ideal_eq h, mse_long_deg_of_ideal_eq h]
  norm_num

lemma ideal_line_singleton (p : Point) : ideal_line [p] = [p] := by
  simp [ideal_line, ideal_loop]

lemma ideal_loop_closed (li lo : ℚ) (n : Nat) :
    ∀ (l : List Point) (i : Nat) (prev : Point), i ≠ 0 → i + l.length ≤ n →
      ideal_loop li lo n i prev l =
        (List.range l.length).map fun k : Nat =>
          ⟨prev.long + ((k : ℚ) + 1) * lo, prev.lat + ((k : ℚ) + 1) * li⟩
  | [], i, prev, _, _ => by simp [ideal_loop]
  | row :: rest, i, prev, hi, hle => by
    have hin : i ≠ n := by
      simp only [List.length_cons] at hle
      omega
    have hrec := ideal_loop_closed li lo n rest (i + 1) (ideal_update li lo prev)
      (Nat.succ_ne_zero i) (by simp only [List.length_cons] at hle; omega)
    have hstep : ideal_loop li lo n i prev (row :: rest) =
        ideal_update li lo prev :: ideal_loop li lo n (i + 1) (ideal_update li lo prev) rest := by
      simp [ideal_loop, hi, hin]
    rw [hstep, hrec, List.length_cons, List.range_succ_eq_map, List.map_cons, List.map_map]
    congr 1
    · simp [ideal_update]
    · refine List.map_congr_left fun k hk => ?_
      simp only [Function.comp_apply, ideal_update, Point.mk.injEq]
      constructor <;> push_cast <;> ring

lemma ideal_line_closed (p : Point) (rest : List Point) :
    ideal_line (p :: rest) =
      p :: (List.range rest.length).map fun k : Nat =>
        ⟨p.long + ((k : ℚ) + 1) * long_inc (p :: rest),
         p.lat + ((k : ℚ) + 1) * lat_inc (p :: rest)⟩ := by
  unfold ideal_line
  have hstep : ideal_loop (lat_inc (p :: rest)) (long_inc (p :: rest)) (p :: rest).length 0
      (p :: rest).headI (p :: rest) =
      p :: ideal_loop (lat_inc (p :: rest)) (long_inc (p :: rest)) (p :: rest).length 1 p rest := by
    simp [ideal_loop]
  rw [hstep, ideal_loop_closed _ _ _ rest 1 p one_ne_zero
    (by simp only [List.length_cons]; omega)]

lemma getLastD_map_range (f : Nat → Point) (m : Nat) (d : Point) (hm : m ≠ 0) :
    ((List.range m).map f).getLastD d = f (m - 1) := by
  obtain ⟨mm, rfl⟩ : ∃ mm, m = mm + 1 := ⟨m - 1, by omega⟩
  rw [List.range_succ, List.map_append]
  simp only [List.map_cons, List.map_nil, List.getLastD_concat]
  simp

lemma last_increment_ne (a b : ℚ) (mm : Nat) (hr : b ≠ a) :
    a + ((mm : ℚ) + 1) * ((b - a) / ((mm : ℚ) + 2)) ≠ b := by
  intro heq
  apply hr
  have hn : (0 : ℚ) < (mm : ℚ) + 2 := by positivity
  field_simp [hn.ne'] at heq
  linarith

lemma w60_length : w60.length = 60 := by
  simp [w60]

lemma w60_valid : ∀ p ∈ w60, validPoint p := by
  intro p hp
  rcases List.mem_cons.1 hp with h | h
  · rw [h]
    exact ⟨by norm_num, by norm_num, by norm_num, by norm_num⟩
  · obtain ⟨k, hk, rfl⟩ := List.mem_map.1 h
    have hk59 : k < 59 := List.mem_range.1 hk
    have hkq : (k : ℚ) ≤ 58 := by exact_mod_cast Nat.lt_succ_iff.1 hk59
    have hk0 : (0 : ℚ) ≤ (k : ℚ) := Nat.cast_nonneg k
    exact ⟨by norm_num, by norm_num, by dsimp only; linarith, by dsimp only; linarith⟩

lemma w60_tail_pos : ∀ c ∈ w60.drop 2, 0 < geodesic_distance w60.headI c := by
  intro c hc
  rw [show w60.drop 2 = ((List.range 59).map fun k : Nat => (⟨(k : ℚ) + 1, 0⟩ : Point)).drop 1
      from rfl] at hc
  have hc2 := List.drop_subset 1 _ hc
  obtain ⟨k, hk, rfl⟩ := List.mem_map.1 hc2
  have hkpos : (0 : ℚ) < (k : ℚ) + 1 := by positivity
  show (0 : ℚ) < ((w60.headI).lat - (0 : ℚ)) ^ 2 + ((w60.headI).long - ((k : ℚ) + 1)) ^ 2
  have hhead : w60.headI = ⟨0, 0⟩ := rfl
  rw [hhead]
  show (0 : ℚ) < ((0 : ℚ) - 0) ^ 2 + ((0 : ℚ) - ((k : ℚ) + 1)) ^ 2
  nlinarith

lemma ideal_line_track3 : ideal_line track3 = [⟨0, 0⟩, ⟨0, 2/3⟩, ⟨0, 4/3⟩] := by
  norm_num [ideal_line, ideal_loop, ideal_update, lat_inc, long_inc, lat_dir_up, long_dir_up,
    lat_range, long_range, lat_start, lat_stop, long_start, long_stop, track3]

lemma ideal_line_tconst : ideal_line tconst = tconst := by
  norm_num [ideal_line, ideal_loop, ideal_update, lat_inc, long_inc, lat_dir_up, long_dir_up,
    lat_range, long_range, lat_start, lat_stop, long_start, long_stop, tconst]

lemma mse_lat_deg_track3 : mse_lat_deg track3 = 5 / 27 := by
  rw [mse_lat_deg, error_rows, ideal_line_track3]
  norm_num [track3]

lemma mse_long_deg_track3 : mse_long_deg track3 = 0 := by
  rw [mse_long_deg, error_rows, ideal_line_track3]
  norm_num [track3]

lemma deg_to_meter_pos : (0 : ℝ) < deg_to_meter := by
  unfold deg_to_meter
  have her : ((earth_radius : ℚ) : ℝ) = 6378137 := by
    norm_num [earth_radius]
  rw [her]
  have hpi := Real.pi_pos
  have h1 : (0 : ℝ) < 2 * Real.pi * 6378137 := by nlinarith
  exact div_pos h1 (by norm_num)

/-! ## Claim theorems -/

/-- C1 (defect evaluation at a concrete input): on the 60-sample window
`w60` of pairwise-distinct points, the pair-generation loops build only 58
pairs, not the 3540 ordered pairs the claim requires; every computed
distance is strictly positive, yet the running minimum of the max/min loop
finishes at 0 because the update `minimum - cord[2]` discards its result,
so the program prints `maximum / 2` instead of a genuine
`(maximum - minimum) / 2`. -/
theorem C1_precision_defect :
    (all_combos w60).length = 58
  ∧ (all_combos w60).length ≠ 3540
  ∧ (∀ pq ∈ all_combos w60, 0 < geodesic_distance pq.1 pq.2)
  ∧ (((all_combos w60).map fun pq => geodesic_distance pq.1 pq.2).foldl
      max_min_step (0, 0)).2 = 0
  ∧ precision_result w60 =
      Except.ok ((((all_combos w60).map fun pq => geodesic_distance pq.1 pq.2).foldl
        max 0) / 2) := by
  have hlen : (all_combos w60).length = 58 := by
    rw [all_combos_eq, List.length_map]
    simp [w60]
  have hmem : ∀ pq ∈ all_combos w60, 0 < geodesic_distance pq.1 pq.2 := by
    intro pq hpq
    rw [all_combos_eq] at hpq
    obtain ⟨c, hc, hpq⟩ := List.mem_map.1 hpq
    rw [← hpq]
    exact w60_tail_pos c hc
  have hvp : ∀ pq ∈ all_combos w60, validPoint pq.1 ∧ validPoint pq.2 := by
    intro pq hpq
    obtain ⟨h1, h2⟩ := all_combos_mem hpq
    exact ⟨w60_valid _ h1, w60_valid _ h2⟩
  refine ⟨hlen, by rw [hlen]; norm_num, hmem, ?_, ?_⟩
  · rw [foldl_max_min]
  · rw [precision_result_eq (attach_distances_ok _ hvp), foldl_max_min]
    norm_num

/-- C2 counterexample: on the perfectly linear track [(0,0),(0,1),(0,2)]
of spec scenario 1 the constructed IdealLine is [(0,0),(0,2/3),(0,4/3)],
which is not the input track, and `line_straightness` returns a strictly
positive RMSE, refuting both the concrete scenario and the general claim
that exactly-linear tracks give RMSE 0. -/
theorem C2_counterexample :
    ideal_line track3 ≠ track3 ∧ line_straightness track3 ≠ 0 := by
  constructor
  · rw [ideal_line_track3]
    simp only [track3, ne_eq, List.cons.injEq, Point.mk.injEq]
    norm_num
  · have hpos : (0 : ℝ) < combined_mse track3 := by
      unfold combined_mse mse_lat_m mse_long_m
      rw [mse_lat_deg_track3, mse_long_deg_track3]
      have hc := deg_to_meter_pos
      push_cast
      nlinarith
    unfold line_straightness
    exact (Real.sqrt_pos.mpr hpos).ne'

/-- C2 (amended): the straightness RMSE is 0 for every track whose samples
coincide with the constructed IdealLine — e.g. a constant track — while
the collinear track of scenario 1 is not such a track (its IdealLine uses
the range/n increment and differs from the input, giving a nonzero RMSE,
see the counterexample). -/
theorem C2_rmse_zero_on_ideal (t : List Point) (h : ideal_line t = t) :
    line_straightness t = 0 :=
  straightness_of_ideal_eq h

theorem C2_witness :
    ideal_line tconst = tconst ∧ line_straightness tconst = 0 :=
  ⟨ideal_line_tconst, C2_rmse_zero_on_ideal tconst ideal_line_tconst⟩

/-- C3: for every source track of length n ≥ 2, the IdealLine has length
n, starts at the source's first point, and each later point equals the
previous IdealLine point plus the fixed signed per-axis increments
`long_inc` and `lat_inc` (axis range divided by n, signed by the axis
trend); consequently, in every axis whose range is nonzero the IdealLine's
last point differs from the source's last point. -/
theorem C3_ideal_line_shape (t : List Point) (h2 : 2 ≤ t.length) :
    (ideal_line t).length = t.length
  ∧ (ideal_line t).get? 0 = t.get? 0
  ∧ (∀ i : Nat, i + 1 < t.length →
      (ideal_line t).get? (i + 1) =
        ((ideal_line t).get? i).map fun q => ⟨q.long + long_inc t, q.lat + lat_inc t⟩)
  ∧ (lat_range t ≠ 0 → ((ideal_line t).getLastD default).lat ≠ lat_stop t)
  ∧ (long_range t ≠ 0 → ((ideal_line t).getLastD default).long ≠ long_stop t) := by
  obtain ⟨p, rest, rfl⟩ : ∃ p rest, t = p :: rest := by
    cases t with
    | nil => simp at h2
    | cons a l => exact ⟨a, l, rfl⟩
  obtain ⟨mm, hmm⟩ : ∃ mm, rest.length = mm + 1 := by
    simp only [List.length_cons] at h2
    exact ⟨rest.length - 1, by omega⟩
  have hn : ((p :: rest).length : ℚ) = (mm : ℚ) + 2 := by
    rw [List.length_cons, hmm]
    push_cast
    ring
  rw [ideal_line_closed p rest]
  refine ⟨by simp, rfl, ?_, ?_, ?_⟩
  · intro i hi
    simp only [List.length_cons] at hi
    cases i with
    | zero =>
      rw [List.get?_cons_succ, List.get?_cons_zero, List.get?_map,
        List.get?_range (by omega : 0 < rest.length)]
      simp only [Option.map_some', Option.some.injEq, Point.mk.injEq]
      constructor <;> push_cast <;> ring
    | succ j =>
      rw [List.get?_cons_succ, List.get?_cons_succ, List.get?_map, List.get?_map,
        List.get?_range (by omega : j + 1 < rest.length),
        List.get?_range (by omega : j < rest.length)]
      simp only [Option.map_some', Option.some.injEq, Point.mk.injEq]
      constructor <;> push_cast <;> ring
  · intro hr
    rw [List.getLastD_cons, getLastD_map_range _ _ _ (by omega : rest.length ≠ 0), hmm,
      Nat.add_sub_cancel]
    show p.lat + ((mm : ℚ) + 1) * lat_inc (p :: rest) ≠ lat_stop (p :: rest)
    have hstart : lat_start (p :: rest) = p.lat := rfl
    by_cases hd : lat_stop (p :: rest) < lat_start (p :: rest)
    · have hinc : lat_inc (p :: rest) =
          (lat_stop (p :: rest) - p.lat) / ((mm : ℚ) + 2) := by
        have hdir : lat_dir_up (p :: rest) = false := by
          simp [lat_dir_up, hd]
        rw [lat_inc, hdir, if_neg (by simp), lat_range, hstart,
          max_eq_left (le_of_lt (hstart ▸ hd)), min_eq_right (le_of_lt (hstart ▸ hd)), hn]
        ring
      rw [hinc]
      exact last_increment_ne p.lat (lat_stop (p :: rest)) mm (hstart ▸ hd).ne
    · have hle : lat_start (p :: rest) ≤ lat_stop (p :: rest) := not_lt.1 hd
      have hinc : lat_inc (p :: rest) =
          (lat_stop (p :: rest) - p.lat) / ((mm : ℚ) + 2) := by
        have hdir : lat_dir_up (p :: rest) = true := by
          simp [lat_dir_up, hd]
        rw [lat_inc, hdir, if_pos rfl, lat_range, hstart,
          max_eq_right (hstart ▸ hle), min_eq_left (hstart ▸ hle), hn]
      rw [hinc]
      have hne : lat_stop (p :: rest) ≠ p.lat := by
        intro heq
        apply hr
        rw [lat_range, hstart, max_eq_right (hstart ▸ hle), min_eq_left (hstart ▸ hle), heq]
        ring
      exact last_increment_ne p.lat (lat_stop (p :: rest)) mm hne
  · intro hr
    rw [List.getLastD_cons, getLastD_map_range _ _ _ (by omega : rest.length ≠ 0), hmm,
      Nat.add_sub_cancel]
    show p.long + ((mm : ℚ) + 1) * long_inc (p :: rest) ≠ long_stop (p :: rest)
    have hstart : long_start (p :: rest) = p.long := rfl
    by_cases hd : long_stop (p :: rest) < long_start (p :: rest)
    · have hinc : long_inc (p :: rest) =
          (long_stop (p :: rest) - p.long) / ((mm : ℚ) + 2) := by
        have hdir : long_dir_up (p :: rest) = false := by
          simp [long_dir_up, hd]
        rw [long_inc, hdir, if_neg (by simp), long_range, hstart,
          max_eq_left (le_of_lt (hstart ▸ hd)), min_eq_right (le_of_lt (hstart ▸ hd)), hn]
        ring
      rw [hinc]
      exact last_increment_ne p.long (long_stop (p :: rest)) mm (hstart ▸ hd).ne
    · have hle : long_start (p :: rest) ≤ long_stop (p :: rest) := not_lt.1 hd
      have hinc : long_inc (p :: rest) =
          (long_stop (p :: rest) - p.long) / ((mm : ℚ) + 2) := by
        have hdir : long_dir_up (p :: rest) = true := by
          simp [long_dir_up, hd]
        rw [long_inc, hdir, if_pos rfl, long_range, hstart,
          max_eq_right (hstart ▸ hle), min_eq_left (hstart ▸ hle), hn]
      rw [hinc]
      have hne : long_stop (p :: rest) ≠ p.long := by
        intro heq
        apply hr
        rw [long_range, hstart, max_eq_right (hstart ▸ hle), min_eq_left (hstart ▸ hle), heq]
        ring
      exact last_increment_ne p.long (long_stop (p :: rest)) mm hne

theorem C3_witness :
    2 ≤ track3.length
  ∧ (ideal_line track3).length = track3.length
  ∧ (ideal_line track3).get? 0 = track3.get? 0
  ∧ ((ideal_line track3).getLastD default).lat ≠ lat_stop track3 := by
  have h := C3_ideal_line_shape track3 (by norm_num [track3])
  have hrange : lat_range track3 ≠ 0 := by
    rw [lat_range]
    norm_num [lat_start, lat_stop, track3]
  exact ⟨by norm_num [track3], h.1, h.2.1, h.2.2.2.1 hrange⟩

/-- C4: for every track of length n ≥ 2 the straightness result is exactly
sqrt(((Σ latdev² / n) · c + (Σ longdev² / n) · c) / 2), where the
deviation at index i is ideal[i] − measured[i] in each axis and
c = 2π·6378137/360 (WGS-84 equatorial radius), the conversion factor
applied exactly once per axis after mean-squaring. -/
theorem C4_rmse_formula (t : List Point) (h2 : 2 ≤ t.length) :
    line_straightness t =
      Real.sqrt
        (((((ideal_line t).zip t).map fun pr => ((pr.1.lat - pr.2.lat) ^ 2 : ℚ)).sum
            / t.length * (2 * Real.pi * 6378137 / 360)
          + (((ideal_line t).zip t).map fun pr => ((pr.1.long - pr.2.long) ^ 2 : ℚ)).sum
            / t.length * (2 * Real.pi * 6378137 / 360)) / 2) := by
  have hA : ((error_rows t).map Point.lat).sum =
      (((ideal_line t).zip t).map fun pr => ((pr.1.lat - pr.2.lat) ^ 2 : ℚ)).sum := by
    unfold error_rows
    rw [List.map_map]
    rfl
  have hB : ((error_rows t).map Point.long).sum =
      (((ideal_line t).zip t).map fun pr => ((pr.1.long - pr.2.long) ^ 2 : ℚ)).sum := by
    unfold error_rows
    rw [List.map_map]
    rfl
  have her : ((earth_radius : ℚ) : ℝ) = 6378137 := by
    norm_num [earth_radius]
  unfold line_straightness combined_mse mse_lat_m mse_long_m deg_to_meter
    mse_lat_deg mse_long_deg
  congr 1
  rw [hA, hB, her]
  push_cast
  ring

theorem C4_witness :
    2 ≤ track3.length
  ∧ line_straightness track3 =
      Real.sqrt
        (((((ideal_line track3).zip track3).map
              fun pr => ((pr.1.lat - pr.2.lat) ^ 2 : ℚ)).sum
            / track3.length * (2 * Real.pi * 6378137 / 360)
          + (((ideal_line track3).zip track3).map
              fun pr => ((pr.1.long - pr.2.long) ^ 2 : ℚ)).sum
            / track3.length * (2 * Real.pi * 6378137 / 360)) / 2) :=
  ⟨by norm_num [track3], C4_rmse_formula track3 (by norm_num [track3])⟩

/-- C5: the accuracy section reports measured_m = distance(first sample,
last sample) of the trimmed track and delta_m = target − measured_m, so
whenever measured_m exceeds the target the printed delta is negative. -/
theorem C5_accuracy_report (target : ℚ) (t : List Point) (h2 : 2 ≤ t.length)
    (ha : validPoint t.headI) (hb : validPoint (t.getLastD default)) :
    accuracy_report target t =
      Except.ok (geodesic_distance t.headI (t.getLastD default),
        target - geodesic_distance t.headI (t.getLastD default))
  ∧ (target < geodesic_distance t.headI (t.getLastD default) →
      target - geodesic_distance t.headI (t.getLastD default) < 0) := by
  constructor
  · unfold accuracy_report measured_length
    rw [position_diff_ok ha hb]
    rfl
  · intro h
    linarith

theorem C5_witness :
    accuracy_report 100 track3 =
      Except.ok (geodesic_distance track3.headI (track3.getLastD default),
        100 - geodesic_distance track3.headI (track3.getLastD default))
  ∧ (100 < geodesic_distance track3.headI (track3.getLastD default) →
      (100 : ℚ) - geodesic_distance track3.headI (track3.getLastD default) < 0) :=
  C5_accuracy_report 100 track3 (by norm_num [track3])
    ⟨by norm_num [track3], by norm_num [track3], by norm_num [track3], by norm_num [track3]⟩
    ⟨by norm_num [track3], by norm_num [track3], by norm_num [track3], by norm_num [track3]⟩

/-- C6 counterexample: on a track of a single sample none of the three
estimators fails — the source has no minimum-length check and no
InsufficientSamples condition: precision prints 0 (the pair list is
empty), accuracy prints measured length 0 and delta = target, and
straightness returns RMSE 0. -/
theorem C6_length_one_counterexample :
    precision_result [⟨1, 2⟩] = Except.ok 0
  ∧ accuracy_report 100 [⟨1, 2⟩] = Except.ok (0, 100)
  ∧ line_straightness [⟨1, 2⟩] = 0 := by
  refine ⟨?_, ?_, straightness_of_ideal_eq (ideal_line_singleton ⟨1, 2⟩)⟩
  · have h0 : precision_result [(⟨1, 2⟩ : Point)] = Except.ok ((0 - 0 : ℚ) / 2) := rfl
    rw [h0]
    norm_num
  · unfold accuracy_report measured_length
    rw [show ([(⟨1, 2⟩ : Point)]).headI = ⟨1, 2⟩ from rfl,
      show ([(⟨1, 2⟩ : Point)]).getLastD default = ⟨1, 2⟩ from rfl,
      position_diff_ok ⟨by norm_num, by norm_num, by norm_num, by norm_num⟩
        ⟨by norm_num, by norm_num, by norm_num, by norm_num⟩,
      geodesic_distance_self]
    show Except.ok ((0 : ℚ), (100 : ℚ) - 0) = Except.ok (0, 100)
    rw [sub_zero]

/-- C6 (amended): a track or window of length 1 makes no estimator fail:
the precision loop produces an empty pair list and prints 0, the accuracy
section measures distance(first, first) = 0 and prints delta = target, and
the straightness routine returns RMSE 0 over the single unchanged row. -/
theorem C6_no_insufficient_samples (p : Point) (target : ℚ) (h : validPoint p) :
    precision_result [p] = Except.ok 0
  ∧ accuracy_report target [p] = Except.ok (0, target)
  ∧ line_straightness [p] = 0 := by
  refine ⟨?_, ?_, straightness_of_ideal_eq (ideal_line_singleton p)⟩
  · have h0 : precision_result [p] = Except.ok ((0 - 0 : ℚ) / 2) := rfl
    rw [h0]
    norm_num
  · unfold accuracy_report measured_length
    rw [show ([p] : List Point).headI = p from rfl,
      show ([p] : List Point).getLastD default = p from rfl,
      position_diff_ok h h, geodesic_distance_self]
    show Except.ok ((0 : ℚ), target - 0) = Except.ok (0, target)
    rw [sub_zero]

theorem C6_witness :
    precision_result [⟨7, 8⟩] = Except.ok 0
  ∧ accuracy_report 42 [⟨7, 8⟩] = Except.ok (0, 42)
  ∧ line_straightness [⟨7, 8⟩] = 0 :=
  C6_no_insufficient_samples ⟨7, 8⟩ 42
    ⟨by norm_num, by norm_num, by norm_num, by norm_num⟩

/-- C7: `position_diff` fails with InvalidCoordinate whenever either input
point is outside [-90, 90] latitude or [-180, 180] longitude; it is a pure
function with no side effects. -/
theorem C7_invalid_coordinate (A B : Point) (h : ¬ validPoint A ∨ ¬ validPoint B) :
    position_diff A B = Except.error GnssError.invalidCoordinate := by
  have hn : ¬ (validPoint A ∧ validPoint B) := fun hc =>
    h.elim (fun hA => hA hc.1) (fun hB => hB hc.2)
  unfold position_diff
  rw [if_neg hn]

theorem C7_witness :
    ¬ validPoint ⟨0, 95⟩
  ∧ position_diff ⟨0, 95⟩ ⟨0, 0⟩ = Except.error GnssError.invalidCoordinate := by
  have hinv : ¬ validPoint (⟨0, 95⟩ : Point) := fun hv => absurd hv.2.1 (by norm_num)
  exact ⟨hinv, C7_invalid_coordinate ⟨0, 95⟩ ⟨0, 0⟩ (Or.inl hinv)⟩

/-- C8: the reported precision bound is nonnegative for every window, and
for a window of identical samples every computed pairwise distance is 0
and the reported bound is 0. -/
theorem C8_precision_bound (w : List Point) :
    (∀ r : ℚ, precision_result w = Except.ok r → 0 ≤ r)
  ∧ ∀ (p : Point) (n : Nat), validPoint p → w = List.replicate n p →
      attach_distances (all_combos w) =
        Except.ok (List.replicate (all_combos w).length 0)
    ∧ precision_result w = Except.ok 0 := by
  constructor
  · intro r hr
    cases hatt : attach_distances (all_combos w) with
    | error e =>
      rw [precision_result_error hatt] at hr
      exact absurd hr (by simp)
    | ok ds =>
      rw [precision_result_eq hatt, foldl_max_min] at hr
      injection hr with hr
      rw [← hr]
      have h0 := foldl_max_nonneg ds 0 le_rfl
      dsimp only
      rw [sub_zero]
      linarith
  · rintro p n hp rfl
    have hall : ∀ pq ∈ all_combos (List.replicate n p), pq = (p, p) := by
      intro pq hpq
      obtain ⟨h1, h2⟩ := all_combos_mem hpq
      have e1 := List.eq_of_mem_replicate h1
      have e2 := List.eq_of_mem_replicate h2
      cases pq
      rw [Prod.mk.injEq]
      exact ⟨e1, e2⟩
    have hvp : ∀ pq ∈ all_combos (List.replicate n p),
        validPoint pq.1 ∧ validPoint pq.2 := by
      intro pq hpq
      rw [hall pq hpq]
      exact ⟨hp, hp⟩
    have hmap : (all_combos (List.replicate n p)).map
        (fun pq => geodesic_distance pq.1 pq.2) =
        List.replicate (all_combos (List.replicate n p)).length 0 := by
      refine List.eq_replicate.2 ⟨by rw [List.length_map], ?_⟩
      intro b hb
      obtain ⟨pq, hpq, hb2⟩ := List.mem_map.1 hb
      rw [← hb2, hall pq hpq]
      exact geodesic_distance_self p
    have hatt := attach_distances_ok _ hvp
    rw [hmap] at hatt
    refine ⟨hatt, ?_⟩
    rw [precision_result_eq hatt, foldl_max_min,
      foldl_max_zero fun d hd => List.eq_of_mem_replicate hd]
    norm_num

theorem C8_witness :
    attach_distances (all_combos (List.replicate 3 (⟨1, 2⟩ : Point))) =
      Except.ok (List.replicate (all_combos (List.replicate 3 (⟨1, 2⟩ : Point))).length 0)
  ∧ precision_result (List.replicate 3 (⟨1, 2⟩ : Point)) = Except.ok 0 :=
  (C8_precision_bound (List.replicate 3 ⟨1, 2⟩)).2 ⟨1, 2⟩ 3
    ⟨by norm_num, by norm_num, by norm_num, by norm_num⟩ rfl

/-- C9: for valid points the distance function is symmetric and vanishes
on coincident points. -/
theorem C9_distance_symm (A B : Point) (hA : validPoint A) (hB : validPoint B) :
    position_diff A B = position_diff B A
  ∧ position_diff A A = Except.ok 0 := by
  constructor
  · rw [position_diff_ok hA hB, position_diff_ok hB hA, geodesic_distance_comm]
  · rw [position_diff_ok hA hA, geodesic_distance_self]

theorem C9_witness :
    position_diff ⟨1, 2⟩ ⟨3, 4⟩ = position_diff ⟨3, 4⟩ ⟨1, 2⟩
  ∧ position_diff ⟨1, 2⟩ ⟨1, 2⟩ = Except.ok 0 :=
  C9_distance_symm ⟨1, 2⟩ ⟨3, 4⟩
    ⟨by norm_num, by norm_num, by norm_num, by norm_num⟩
    ⟨by norm_num, by norm_num, by norm_num, by norm_num⟩

/-- C10: over any 60-sample window of valid points the pair loops build
exactly the 58 pairs (sample 0, sample k) for k = 2..59 — the shared zip
iterator is drained by the first inner loop — the running minimum stays 0
because `minimum - cord[2]` discards its result, and the printed value is
half the running maximum of those 58 nonnegative distances from the first
sample, i.e. half their maximum. -/
theorem C10_printed_precision (w : List Point) (hlen : w.length = 60)
    (hv : ∀ p ∈ w, validPoint p) :
    all_combos w = (w.drop 2).map (fun c => (w.headI, c))
  ∧ (all_combos w).length = 58
  ∧ (∀ d ∈ (w.drop 2).map (fun c => geodesic_distance w.headI c), 0 ≤ d)
  ∧ (((w.drop 2).map (fun c => geodesic_distance w.headI c)).foldl
      max_min_step (0, 0)).2 = 0
  ∧ precision_result w =
      Except.ok ((((w.drop 2).map (fun c => geodesic_distance w.headI c)).foldl
        max 0) / 2) := by
  have hcombos := all_combos_eq w
  have hvp : ∀ pq ∈ all_combos w, validPoint pq.1 ∧ validPoint pq.2 := by
    intro pq hpq
    obtain ⟨h1, h2⟩ := all_combos_mem hpq
    exact ⟨hv _ h1, hv _ h2⟩
  have hatt := attach_distances_ok _ hvp
  have hmap : (all_combos w).map (fun pq => geodesic_distance pq.1 pq.2) =
      (w.drop 2).map fun c => geodesic_distance w.headI c := by
    rw [hcombos, List.map_map]
    rfl
  rw [hmap] at hatt
  refine ⟨hcombos, ?_, ?_, ?_, ?_⟩
  · rw [hcombos, List.length_map, List.length_drop, hlen]
  · intro d hd
    obtain ⟨c, hc, hd2⟩ := List.mem_map.1 hd
    rw [← hd2]
    exact geodesic_distance_nonneg _ _
  · rw [foldl_max_min]
  · rw [precision_result_eq hatt, foldl_max_min]
    norm_num

theorem C10_witness :
    w60.length = 60
  ∧ (all_combos w60).length = 58
  ∧ precision_result w60 =
      Except.ok ((((w60.drop 2).map (fun c => geodesic_distance w60.headI c)).foldl
        max 0) / 2) := by
  have h := C10_printed_precision w60 w60_length w60_valid
  exact ⟨w60_length, h.2.1, h.2.2.2.2⟩
